import Mathlib

/-!
# Verification of the RAG chatbot front-end response consumer

Shallow embedding of the chat client in `src/App.tsx` (two near-duplicate
versions; the richer one carries the streaming read loop).  Text is modelled
as `List Char`: the source decodes each byte chunk with a stream-aware
`TextDecoder` (`decoder.decode(value, {stream: true})`), so multi-byte
characters split across chunk boundaries are reassembled before the frame
decoder sees them; chunk boundaries in this model are therefore character
boundaries.

Platform builtins used by the source (`JSON.parse`, `String.prototype.trim`,
`String.prototype.split`, truthiness, member access, string coercion) are
embedded below following the ECMAScript/JSON semantics.  JavaScript number
formatting (float64 shortest round-trip) is approximated: it is exact for the
string payloads every verified property exercises and for plain decimal
literals; message ids (`Date.now()` plus a random suffix in the source, an
opaque unique token per the data model) are modelled as a fresh counter, and
the wall-clock `createdAt` field is not modelled since no property refers
to it.
-/

/-! ## JSON values -/

/-- A parsed JSON value.  Numbers keep their literal decimal parts
(sign, integer digits, fraction digits, optional signed exponent digits),
which determine truthiness exactly. -/
inductive Json where
  | null : Json
  | bool (b : Bool) : Json
  | str (s : String) : Json
  | num (neg : Bool) (intPart fracPart : List Char) (expPart : Option (Bool × List Char)) : Json
  | arr (elems : List Json) : Json
  | obj (fields : List (String × Json)) : Json

/-! ## JavaScript string helpers -/

/-- ECMAScript WhiteSpace / LineTerminator characters recognised by
`String.prototype.trim` (the common set). -/
def isJsSpace (c : Char) : Bool :=
  c == ' ' || c == '\t' || c == '\n' || c == '\r' || c == '\x0b' || c == '\x0c' ||
  c == '\u00A0' || c == '\uFEFF' || c == '\u2028' || c == '\u2029'

/-- `s.trim()`. -/
def jsTrim (s : List Char) : List Char :=
  ((s.dropWhile isJsSpace).reverse.dropWhile isJsSpace).reverse

/-- Insignificant whitespace of the JSON grammar. -/
def isJsonSpace (c : Char) : Bool :=
  c == ' ' || c == '\n' || c == '\r' || c == '\t'

def skipWs (s : List Char) : List Char :=
  s.dropWhile isJsonSpace

/-- Substring test, as `String.prototype.includes`. -/
def hasSub (pat : List Char) : List Char → Bool
  | [] => pat.isEmpty
  | c :: r => pat.isPrefixOf (c :: r) || hasSub pat r

/-! ## JSON.parse -/

/-- Value of one hexadecimal digit (both letter cases), by code point. -/
def hexDigitVal (c : Char) : Option Nat :=
  let n := c.toNat
  if 48 ≤ n ∧ n ≤ 57 then some (n - 48)
  else if 97 ≤ n ∧ n ≤ 102 then some (n - 87)
  else if 65 ≤ n ∧ n ≤ 70 then some (n - 55)
  else none

/-- Value of a four-hex-digit escape payload. -/
def hexQuad (h1 h2 h3 h4 : Char) : Option Nat :=
  match hexDigitVal h1, hexDigitVal h2, hexDigitVal h3, hexDigitVal h4 with
  | some v1, some v2, some v3, some v4 => some (v1 * 4096 + v2 * 256 + v3 * 16 + v4)
  | _, _, _, _ => none

/-- UTF-16 code units of one character. -/
def charUnits (c : Char) : List Nat :=
  if c.toNat < 0x10000 then [c.toNat]
  else
    let off := c.toNat - 0x10000
    [off / 1024 + 0xd800, off % 1024 + 0xdc00]

/-- First pass over a JSON string literal body (after the opening quote):
decode escapes to UTF-16 code units, return them with the input past the
closing quote; `none` on an unterminated string, a bad escape, or a raw
control character. -/
def parseUnits : List Char → Option (List Nat × List Char)
  | [] => none
  | '"' :: r => some ([], r)
  | '\\' :: esc =>
    match esc with
    | '"' :: r => (parseUnits r).map (fun p => (0x22 :: p.1, p.2))
    | '\\' :: r => (parseUnits r).map (fun p => (0x5c :: p.1, p.2))
    | '/' :: r => (parseUnits r).map (fun p => (0x2f :: p.1, p.2))
    | 'b' :: r => (parseUnits r).map (fun p => (0x08 :: p.1, p.2))
    | 'f' :: r => (parseUnits r).map (fun p => (0x0c :: p.1, p.2))
    | 'n' :: r => (parseUnits r).map (fun p => (0x0a :: p.1, p.2))
    | 'r' :: r => (parseUnits r).map (fun p => (0x0d :: p.1, p.2))
    | 't' :: r => (parseUnits r).map (fun p => (0x09 :: p.1, p.2))
    | 'u' :: a :: b :: c :: d :: r =>
      (match hexQuad a b c d with
       | none => none
       | some n => (parseUnits r).map (fun p => (n :: p.1, p.2)))
    | _ => none
  | c :: r =>
    if c.toNat < 0x20 then none
    else (parseUnits r).map (fun p => (charUnits c ++ p.1, p.2))

def isHighSurrogate (u : Nat) : Bool := 0xd800 ≤ u && u < 0xdc00

def isLowSurrogate (u : Nat) : Bool := 0xdc00 ≤ u && u < 0xe000

/-- Second pass: combine surrogate pairs into scalar values.  A code unit that
remains a lone surrogate degrades to `'\x00'` (a JavaScript string would keep
the lone UTF-16 surrogate, which `Char` cannot represent; no verified property
exercises that corner). -/
def combineUnits : List Nat → List Char
  | [] => []
  | [u] => [Char.ofNat u]
  | u :: v :: rest =>
    if isHighSurrogate u ∧ isLowSurrogate v then
      Char.ofNat ((u - 0xd800) * 1024 + (v - 0xdc00) + 0x10000) :: combineUnits rest
    else
      Char.ofNat u :: combineUnits (v :: rest)

/-- Body of a JSON string literal, after the opening quote: the decoded
characters and the input past the closing quote. -/
def parseStringBody (s : List Char) : Option (List Char × List Char) :=
  (parseUnits s).map (fun p => (combineUnits p.1, p.2))

/-- A JSON number literal: optional minus, integer part (`0` or no leading
zero), optional fraction, optional exponent. -/
def parseNumber (s : List Char) : Option (Json × List Char) :=
  let signSplit : Bool × List Char :=
    match s with
    | '-' :: r => (true, r)
    | _ => (false, s)
  let neg := signSplit.1
  let s1 := signSplit.2
  match s1 with
  | [] => none
  | c :: r =>
    let intSplit : Option (List Char × List Char) :=
      if c == '0' then some (['0'], r)
      else if c.isDigit then some (c :: r.takeWhile Char.isDigit, r.dropWhile Char.isDigit)
      else none
    match intSplit with
    | none => none
    | some (ip, r2) =>
      let fracSplit : Option (List Char × List Char) :=
        match r2 with
        | '.' :: r3 =>
          let ds := r3.takeWhile Char.isDigit
          if ds.isEmpty then none else some (ds, r3.dropWhile Char.isDigit)
        | _ => some ([], r2)
      match fracSplit with
      | none => none
      | some (fp, r4) =>
        let expSplit : Option (Option (Bool × List Char) × List Char) :=
          match r4 with
          | e :: r5 =>
            if e == 'e' || e == 'E' then
              let signRest : Bool × List Char :=
                match r5 with
                | '+' :: r6 => (false, r6)
                | '-' :: r6 => (true, r6)
                | _ => (false, r5)
              let ds := signRest.2.takeWhile Char.isDigit
              if ds.isEmpty then none
              else some (some (signRest.1, ds), signRest.2.dropWhile Char.isDigit)
            else some (none, r4)
          | [] => some (none, r4)
        match expSplit with
        | none => none
        | some (ep, r7) => some (.num neg ip fp ep, r7)

mutual

/-- Recursive descent over the JSON grammar; the fuel decreases on every
nested call and each unit of fuel accompanies at least one consumed
character, so `length + 1` fuel (as supplied by `parseJson`) never runs out. -/
def parseValue : Nat → List Char → Option (Json × List Char)
  | 0, _ => none
  | f + 1, s =>
    match skipWs s with
    | [] => none
    | '{' :: r =>
      (match skipWs r with
       | '}' :: r2 => some (.obj [], r2)
       | _ =>
         match parseMember f r with
         | some (kv, r2) => parseObjectTail f r2 [kv]
         | none => none)
    | '[' :: r =>
      (match skipWs r with
       | ']' :: r2 => some (.arr [], r2)
       | _ =>
         match parseValue f r with
         | some (v, r2) => parseArrayTail f r2 [v]
         | none => none)
    | '"' :: r => (parseStringBody r).map (fun p => (.str (String.mk p.1), p.2))
    | 't' :: r => if r.take 3 = ['r', 'u', 'e'] then some (.bool true, r.drop 3) else none
    | 'f' :: r => if r.take 4 = ['a', 'l', 's', 'e'] then some (.bool false, r.drop 4) else none
    | 'n' :: r => if r.take 3 = ['u', 'l', 'l'] then some (.null, r.drop 3) else none
    | s2 => parseNumber s2

/-- One `"key" : value` object member. -/
def parseMember : Nat → List Char → Option ((String × Json) × List Char)
  | 0, _ => none
  | f + 1, s =>
    match skipWs s with
    | '"' :: r =>
      (match parseStringBody r with
       | some (k, r2) =>
         (match skipWs r2 with
          | ':' :: r3 => (parseValue f r3).map (fun p => ((String.mk k, p.1), p.2))
          | _ => none)
       | none => none)
    | _ => none

/-- After one member: `, member`* then `}`. -/
def parseObjectTail : Nat → List Char → List (String × Json) → Option (Json × List Char)
  | 0, _, _ => none
  | f + 1, s, acc =>
    match skipWs s with
    | ',' :: r =>
      (match parseMember f r with
       | some (kv, r2) => parseObjectTail f r2 (acc ++ [kv])
       | none => none)
    | '}' :: r => some (.obj acc, r)
    | _ => none

/-- After one element: `, value`* then `]`. -/
def parseArrayTail : Nat → List Char → List Json → Option (Json × List Char)
  | 0, _, _ => none
  | f + 1, s, acc =>
    match skipWs s with
    | ',' :: r =>
      (match parseValue f r with
       | some (v, r2) => parseArrayTail f r2 (acc ++ [v])
       | none => none)
    | ']' :: r => some (.arr acc, r)
    | _ => none

end

/-- `JSON.parse`: one value, surrounding whitespace allowed, nothing after. -/
def parseJson (s : List Char) : Option Json :=
  match parseValue (s.length + 1) s with
  | some (v, rest) => if (skipWs rest).isEmpty then some v else none
  | none => none

/-! ## JavaScript value semantics: truthiness, member access, coercion -/

/-- ECMAScript ToBoolean on a parsed JSON value.  A number is falsy exactly
when its mantissa digits are all zero. -/
def jsTruthy : Json → Bool
  | .null => false
  | .bool b => b
  | .str s => !(s == "")
  | .num _ ip fp _ => !((ip ++ fp).all (· == '0'))
  | .arr _ => true
  | .obj _ => true

/-- Last-binding lookup: `JSON.parse` keeps the last of duplicate keys. -/
def lookupLast (fields : List (String × Json)) (k : String) : Option Json :=
  match fields with
  | [] => none
  | kv :: rest =>
    match lookupLast rest k with
    | some w => some w
    | none => if kv.1 == k then some kv.2 else none

/-- `v.k` member access: throws a TypeError on `null` (modelled as
`Except.error`), yields `undefined` (modelled as `none`) when the property is
absent or the base is not an object. -/
def jsGet (v : Json) (k : String) : Except Unit (Option Json) :=
  match v with
  | .null => .error ()
  | .obj fields => .ok (lookupLast fields k)
  | _ => .ok none

/-- ECMAScript ToString on a parsed JSON value, with fuel for nested arrays
(`sizeOf` fuel is always sufficient; evaluation on the concrete values of the
verified properties confirms it).  Number formatting is approximated as noted
in the header. -/
def jsToStringF : Nat → Json → String
  | _, .null => "null"
  | _, .bool true => "true"
  | _, .bool false => "false"
  | _, .str s => s
  | _, .num neg ip fp ep =>
    if (ip ++ fp).all (· == '0') then "0"
    else
      let fp2 := (fp.reverse.dropWhile (· == '0')).reverse
      String.mk ((if neg then ['-'] else []) ++ ip ++
        (if fp2.isEmpty then [] else '.' :: fp2) ++
        (match ep with
         | none => []
         | some (esgn, ds) => 'e' :: ((if esgn then ['-'] else ['+']) ++ ds)))
  | _, .obj _ => "[object Object]"
  | 0, .arr _ => ""
  | f + 1, .arr elems =>
    -- Array.prototype.toString: elements joined with ",", null rendered empty.
    String.mk (List.intercalate [','] (elems.map (fun e =>
      match e with
      | .null => []
      | v => (jsToStringF f v).toList)))

mutual

/-- Computable structural size, used as fuel for `jsToString`. -/
def jsonFuel : Json → Nat
  | .arr xs => jsonFuelList xs + 1
  | _ => 1

def jsonFuelList : List Json → Nat
  | [] => 0
  | x :: xs => jsonFuel x + jsonFuelList xs + 1

end

def jsToString (v : Json) : String :=
  jsToStringF (jsonFuel v) v

def truthyOpt : Option Json → Bool
  | none => false
  | some v => jsTruthy v

/-- Template-literal / `+` coercion of a possibly-undefined member. -/
def textOfOpt : Option Json → String
  | none => "undefined"
  | some v => jsToString v

/-! ## Frame decoder

`buffer.split("\n\n")` followed by `buffer = lines.pop() || ""` and emission
of the remaining pieces. -/

/-- The blank-line frame separator. -/
def sepBlank : List Char := ['\n', '\n']

/-- `s.split("\n\n")` for a JavaScript string: greedy left-to-right scan on
the two-newline separator.  Always returns at least one piece; the last piece
contains no separator. -/
def splitBlank : List Char → List (List Char)
  | [] => [[]]
  | [c] => [[c]]
  | c1 :: c2 :: rest =>
    if c1 = '\n' ∧ c2 = '\n' then
      [] :: splitBlank rest
    else
      match splitBlank (c2 :: rest) with
      | [] => [[c1]]
      | p :: ps => (c1 :: p) :: ps

/-- One iteration of the read loop's buffering: append the chunk, split, emit
every piece but the last, retain the last as the new buffer. -/
def feedChunk (buffer chunk : List Char) : List (List Char) × List Char :=
  let lines := splitBlank (buffer ++ chunk)
  (lines.dropLast, lines.getLastD [])

/-- Fold `feedChunk` over a chunk sequence, accumulating emitted frames. -/
def feedChunks (buffer : List Char) : List (List Char) → List (List Char) × List Char
  | [] => ([], buffer)
  | c :: cs =>
    let step := feedChunk buffer c
    let rest := feedChunks step.2 cs
    (step.1 ++ rest.1, rest.2)

/-! ## Application state and the transcript store -/

inductive Role where
  | user : Role
  | assistant : Role
deriving DecidableEq

structure Message where
  id : Nat
  role : Role
  content : String
deriving DecidableEq

/-- The reactive state the chat logic touches: `input`, `messages`,
`isSending`, `error`, `documentId` (the upload/view state is outside every
verified property's scope).  `error` holds the raw value passed to
`setError` (a parsed JSON value on the in-band error path, a string
elsewhere); `nextId` feeds the fresh-id counter. -/
structure AppState where
  input : String
  messages : List Message
  isSending : Bool
  error : Option Json
  documentId : Option String
  nextId : Nat

/-- The `/ask` request body.  `stream` is `some false` in the streaming-capable
version and absent (`none`) in the plain version. -/
structure Request where
  message : String
  documentId : Option String
  stream : Option Bool
deriving DecidableEq

/-- `addMessage(role, content)`: append at the tail with a fresh id, return
the id. -/
def addMessage (st : AppState) (r : Role) (content : String) : AppState × Nat :=
  let id := st.nextId
  ({st with
     messages := st.messages ++ [{id := id, role := r, content := content}],
     nextId := id + 1}, id)

def applyUpd (mid : Nat) (f : String → String) (m : Message) : Message :=
  if m.id = mid then {m with content := f m.content} else m

/-- `updateMessage(id, updater)`: map the updater over the one entry with the
given id (the source's string overload is the constant updater). -/
def updateMessage (st : AppState) (mid : Nat) (f : String → String) : AppState :=
  {st with messages := st.messages.map (applyUpd mid f)}

/-- `clearChat()`: `setError(null); setMessages([]); setInput("")`. -/
def clearChat (st : AppState) : AppState :=
  {st with error := none, messages := [], input := ""}

/-! ## The send path -/

/-- The response the runtime hands back from `fetch`: status line, declared
content type (`""` when the header is absent, matching `|| ""`), and the body
as decoded text chunks; `none` models a body with no readable byte source. -/
structure Response where
  ok : Bool
  status : Nat
  contentType : String
  body : Option (List (List Char))

/-- A `fetch` either resolves to a response or rejects (network failure). -/
inductive FetchOutcome where
  | success (res : Response) : FetchOutcome
  | netError (msg : String) : FetchOutcome

/-- `res.text()` / the text the body decodes to. -/
def bodyText (res : Response) : List Char :=
  (res.body.getD []).flatten

def errorReplyText (msg : String) : String :=
  "Sorry — I hit an error talking to the server.\n\n" ++ msg

/-- The `catch` block shared by every thrown failure: `setError(msg)`, append
the apology assistant message, clear the busy flag. -/
def sendCatch (st : AppState) (msg : String) : AppState :=
  let st1 := {st with error := some (.str msg)}
  let st2 := (addMessage st1 .assistant (errorReplyText msg)).1
  {st2 with isSending := false}

/-- `` `Request failed (${res.status}). ${text}`.trim() `` -/
def failText (res : Response) : String :=
  String.mk (jsTrim (("Request failed (".toList) ++ (Nat.repr res.status).toList ++
    ("). ".toList) ++ bodyText res))

/-- Message of the SyntaxError thrown by `res.json()` / `JSON.parse` on a bad
body (exact text is engine-specific; only its presence matters). -/
def jsonSyntaxErrorText : String := "Unexpected token in JSON"

/-- Message of the TypeError thrown by member access on `null`
(engine-specific text). -/
def nullMemberErrorText : String := "Cannot read properties of null"

def dataMark : List Char := "data: ".toList

def doneLit : List Char := "[DONE]".toList

/-- `data.answer ?? "No answer returned by server."` (nullish coalescing). -/
def answerText : Option Json → String
  | none => "No answer returned by server."
  | some .null => "No answer returned by server."
  | some v => jsToString v

/-- The body of the streaming `for (const line of lines)` loop for one frame:
returns the new state and whether the loop (and `send`) returns here. -/
def processFrame (st : AppState) (mid : Nat) (line : List Char) : AppState × Bool :=
  if line.take 6 = dataMark then
    let jsonStr := line.drop 6
    if jsTrim jsonStr = doneLit then
      ({st with isSending := false}, true)
    else
      match parseJson jsonStr with
      | none => (st, false)           -- JSON.parse threw; caught and logged
      | some data =>
        match jsGet data "error" with
        | .error _ => (st, false)     -- member access on null threw; caught
        | .ok errv =>
          if truthyOpt errv then
            let st1 := {st with error := errv}
            let st2 := updateMessage st1 mid (fun _ => "Error: " ++ textOfOpt errv)
            ({st2 with isSending := false}, true)
          else
            match jsGet data "token" with
            | .error _ => (st, false)
            | .ok tokv =>
              if truthyOpt tokv then
                (updateMessage st mid (fun prev => prev ++ textOfOpt tokv), false)
              else (st, false)
  else (st, false)

/-- All frames of one chunk, stopping at the first early return. -/
def processFrames (st : AppState) (mid : Nat) : List (List Char) → AppState × Bool
  | [] => (st, false)
  | f :: fs =>
    let step := processFrame st mid f
    if step.2 then (step.1, true) else processFrames step.1 mid fs

/-- The `while (true)` read loop: buffer, split, process; on end-of-data
(`done`) break out and clear the busy flag, silently discarding the buffer. -/
def runStreamLoop (st : AppState) (mid : Nat) (buffer : List Char) :
    List (List Char) → AppState
  | [] => {st with isSending := false}
  | c :: cs =>
    let fed := feedChunk buffer c
    let step := processFrames st mid fed.1
    if step.2 then step.1 else runStreamLoop step.1 mid fed.2 cs

/-- State updates preceding the `fetch`: `setError(null)`, append the user
message, `setInput("")`, `setIsSending(true)`. -/
def sendPrepared (st : AppState) (trimmed : String) : AppState :=
  let st1 := {st with error := none}
  let st2 := (addMessage st1 .user trimmed).1
  let st3 := {st2 with input := ""}
  {st3 with isSending := true}

/-- The `try` block of the streaming-capable `send`, after the guard. -/
def sendGo (st0 : AppState) (trimmed : String) (o : FetchOutcome) :
    AppState × Option Request :=
  let st := sendPrepared st0 trimmed
  let req : Request := {message := trimmed, documentId := st0.documentId, stream := some false}
  match o with
  | .netError msg => (sendCatch st msg, some req)
  | .success res =>
    if res.ok = false then
      (sendCatch st (failText res), some req)
    else if hasSub ("text/event-stream".toList) res.contentType.toList then
      match res.body with
      | none => (sendCatch st "Response body is not readable", some req)
      | some chunks =>
        let opened := addMessage st .assistant ""
        (runStreamLoop opened.1 opened.2 [] chunks, some req)
    else
      match parseJson (bodyText res) with
      | none => (sendCatch st jsonSyntaxErrorText, some req)
      | some data =>
        match jsGet data "answer" with
        | .error _ => (sendCatch st nullMemberErrorText, some req)
        | .ok ans =>
          ({(addMessage st .assistant (answerText ans)).1 with isSending := false}, some req)

/-- `send()` of the streaming-capable version: trim, guard on empty input or
the busy flag, then run the request against the supplied fetch outcome.  Also
returns the request body issued, `none` when no request was made. -/
def send (st : AppState) (o : FetchOutcome) : AppState × Option Request :=
  let trimmed := jsTrim st.input.toList
  if trimmed = [] ∨ st.isSending = true then (st, none)
  else sendGo st (String.mk trimmed) o

/-- The `try` block of the plain (single-shot only) version's `send`: no
content-type branch, the body is always decoded as one JSON object; the
`finally` clause clears the busy flag on every path. -/
def sendBasicGo (st0 : AppState) (trimmed : String) (o : FetchOutcome) :
    AppState × Option Request :=
  let st := sendPrepared st0 trimmed
  let req : Request := {message := trimmed, documentId := st0.documentId, stream := none}
  match o with
  | .netError msg => (sendCatch st msg, some req)
  | .success res =>
    if res.ok = false then
      (sendCatch st (failText res), some req)
    else
      match parseJson (bodyText res) with
      | none => (sendCatch st jsonSyntaxErrorText, some req)
      | some data =>
        match jsGet data "answer" with
        | .error _ => (sendCatch st nullMemberErrorText, some req)
        | .ok ans =>
          ({(addMessage st .assistant (answerText ans)).1 with isSending := false}, some req)

/-- `send()` of the plain version (identical guard and preparation). -/
def sendBasic (st : AppState) (o : FetchOutcome) : AppState × Option Request :=
  let trimmed := jsTrim st.input.toList
  if trimmed = [] ∨ st.isSending = true then (st, none)
  else sendBasicGo st (String.mk trimmed) o

/-! ## Frame decoder lemmas -/

theorem splitBlank_ne_nil : ∀ s : List Char, splitBlank s ≠ []
  | [] => by simp [splitBlank]
  | [c] => by simp [splitBlank]
  | c1 :: c2 :: rest => by
    unfold splitBlank
    split
    · exact List.cons_ne_nil _ _
    · cases h : splitBlank (c2 :: rest) with
      | nil => exact List.cons_ne_nil _ _
      | cons p ps => exact List.cons_ne_nil _ _

theorem splitBlank_singleton : ∀ (s p : List Char), splitBlank s = [p] → p = s
  | [], p => by
    intro h
    simp [splitBlank] at h
    simp [h]
  | [c], p => by
    intro h
    simp [splitBlank] at h
    simp [h]
  | c1 :: c2 :: rest, p => by
    unfold splitBlank
    split
    · intro h
      obtain ⟨-, h2⟩ := List.cons.injEq .. ▸ h
      exact absurd h2.symm (splitBlank_ne_nil rest).symm
    · cases h : splitBlank (c2 :: rest) with
      | nil => exact absurd h (splitBlank_ne_nil _)
      | cons q qs =>
        intro h2
        obtain ⟨hp, hqs⟩ := List.cons.injEq .. ▸ h2
        subst hqs
        have hq := splitBlank_singleton (c2 :: rest) q h
        rw [← hp, hq]

theorem splitBlank_append : ∀ s t : List Char,
    splitBlank (s ++ t) =
      (splitBlank s).dropLast ++ splitBlank ((splitBlank s).getLastD [] ++ t)
  | [], t => by simp [splitBlank]
  | [c], t => by simp [splitBlank]
  | c1 :: c2 :: rest, t => by
    by_cases hnl : c1 = '\n' ∧ c2 = '\n'
    · have ih := splitBlank_append rest t
      have hne := splitBlank_ne_nil rest
      show splitBlank (c1 :: c2 :: (rest ++ t)) = _
      rw [splitBlank, if_pos hnl, splitBlank, if_pos hnl, ih]
      cases h : splitBlank rest with
      | nil => exact absurd h hne
      | cons q qs =>
        simp only [List.getLastD_cons, List.cons_append]
        cases qs with
        | nil => simp
        | cons q2 qs2 =>
          simp only [List.dropLast_cons₂, List.cons_append, List.getLastD_cons]
    · have ih := splitBlank_append (c2 :: rest) t
      have hne := splitBlank_ne_nil (c2 :: rest)
      show splitBlank (c1 :: c2 :: (rest ++ t)) = _
      rw [splitBlank, if_neg hnl, splitBlank, if_neg hnl]
      cases h : splitBlank (c2 :: rest) with
      | nil => exact absurd h hne
      | cons q qs =>
        cases qs with
        | nil =>
          have hq : q = c2 :: rest := splitBlank_singleton _ _ h
          subst hq
          simp only [List.dropLast_single, List.getLastD_cons, List.getLastD_nil,
            List.nil_append, List.cons_append]
          rw [splitBlank, if_neg hnl]
        | cons q2 qs2 =>
          rw [h] at ih
          have h2 : splitBlank ((c2 :: rest) ++ t) =
              (q :: q2 :: qs2).dropLast ++
                splitBlank ((q :: q2 :: qs2).getLastD [] ++ t) := ih
          rw [List.cons_append] at h2
          rw [h2]
          simp [List.dropLast_cons₂, List.getLastD_cons]

theorem sep_not_prefixOf (c1 c2 : Char) (rest : List Char)
    (hnl : ¬(c1 = '\n' ∧ c2 = '\n')) :
    sepBlank.isPrefixOf (c1 :: c2 :: rest) = false := by
  simp only [sepBlank, List.isPrefixOf, Bool.and_true]
  rcases not_and_or.mp hnl with hc | hc
  · have h : ('\n' == c1) = false := beq_eq_false_iff_ne.mpr (fun h => hc h.symm)
    rw [h, Bool.false_and]
  · have h : ('\n' == c2) = false := beq_eq_false_iff_ne.mpr (fun h => hc h.symm)
    rw [h, Bool.and_false]

theorem splitBlank_reconstruct : ∀ s : List Char,
    (((splitBlank s).dropLast.map (· ++ sepBlank)).flatten ++
      (splitBlank s).getLastD []) = s
  | [] => by simp [splitBlank]
  | [c] => by simp [splitBlank]
  | c1 :: c2 :: rest => by
    by_cases hnl : c1 = '\n' ∧ c2 = '\n'
    · have ih := splitBlank_reconstruct rest
      have hne := splitBlank_ne_nil rest
      obtain ⟨h1, h2⟩ := hnl
      subst h1
      subst h2
      rw [splitBlank, if_pos ⟨rfl, rfl⟩]
      cases h : splitBlank rest with
      | nil => exact absurd h hne
      | cons q qs =>
        rw [h] at ih
        rw [List.getLastD_cons] at ih
        simp only [List.dropLast_cons₂, List.map_cons, List.flatten_cons, List.nil_append,
          List.getLastD_cons, List.append_assoc]
        rw [ih]
        rfl
    · have ih := splitBlank_reconstruct (c2 :: rest)
      have hne := splitBlank_ne_nil (c2 :: rest)
      rw [splitBlank, if_neg hnl]
      cases h : splitBlank (c2 :: rest) with
      | nil => exact absurd h hne
      | cons q qs =>
        rw [h] at ih
        cases qs with
        | nil =>
          have hq : q = c2 :: rest := splitBlank_singleton _ _ h
          subst hq
          simp only [List.dropLast_single, List.map_nil, List.flatten_nil, List.nil_append,
            List.getLastD_cons, List.getLastD_nil]
        | cons q2 qs2 =>
          simp only [List.dropLast_cons₂, List.map_cons, List.flatten_cons,
            List.getLastD_cons, List.cons_append, List.append_assoc] at ih ⊢
          rw [ih]

theorem splitBlank_last_sepFree : ∀ s : List Char,
    hasSub sepBlank ((splitBlank s).getLastD []) = false
  | [] => by decide
  | [c] => by
    simp only [splitBlank, List.getLastD_cons, List.getLastD_nil]
    simp [hasSub, sepBlank, List.isPrefixOf]
  | c1 :: c2 :: rest => by
    by_cases hnl : c1 = '\n' ∧ c2 = '\n'
    · have ih := splitBlank_last_sepFree rest
      have hne := splitBlank_ne_nil rest
      rw [splitBlank, if_pos hnl]
      cases h : splitBlank rest with
      | nil => exact absurd h hne
      | cons q qs =>
        rw [h] at ih
        simpa only [List.getLastD_cons] using ih
    · have ih := splitBlank_last_sepFree (c2 :: rest)
      have hne := splitBlank_ne_nil (c2 :: rest)
      rw [splitBlank, if_neg hnl]
      cases h : splitBlank (c2 :: rest) with
      | nil => exact absurd h hne
      | cons q qs =>
        rw [h] at ih
        cases qs with
        | nil =>
          have hq : q = c2 :: rest := splitBlank_singleton _ _ h
          subst hq
          simp only [List.getLastD_cons, List.getLastD_nil] at ih ⊢
          show (sepBlank.isPrefixOf (c1 :: c2 :: rest) || hasSub sepBlank (c2 :: rest)) = false
          rw [sep_not_prefixOf c1 c2 rest hnl, ih]
          rfl
        | cons q2 qs2 =>
          simpa only [List.getLastD_cons] using ih

theorem getLastD_irrel {α : Type} {l : List α} (h : l ≠ []) (a b : α) :
    l.getLastD a = l.getLastD b := by
  cases l with
  | nil => exact absurd rfl h
  | cons x xs => rw [List.getLastD_cons, List.getLastD_cons]

theorem getLastD_append {α : Type} (A M : List α) (hM : M ≠ []) :
    ∀ d : α, (A ++ M).getLastD d = M.getLastD d := by
  induction A with
  | nil => intro d; rfl
  | cons a A ih =>
    intro d
    rw [List.cons_append, List.getLastD_cons, ih a]
    exact getLastD_irrel hM a d

theorem dropLast_append_ne {α : Type} (A M : List α) (hM : M ≠ []) :
    (A ++ M).dropLast = A ++ M.dropLast := by
  rw [List.dropLast_append]
  simp [List.isEmpty_iff, hM]

theorem feedChunks_cons_flatten : ∀ (cs : List (List Char)) (buf c : List Char),
    feedChunks buf (c :: cs) = feedChunk buf (c ++ cs.flatten)
  | [], buf, c => by
    simp [feedChunks, feedChunk]
  | c2 :: cs, buf, c => by
    have ih := feedChunks_cons_flatten cs (feedChunk buf c).2 c2
    show ((feedChunk buf c).1 ++ (feedChunks (feedChunk buf c).2 (c2 :: cs)).1,
          (feedChunks (feedChunk buf c).2 (c2 :: cs)).2) = _
    rw [ih]
    have hM := splitBlank_ne_nil ((splitBlank (buf ++ c)).getLastD [] ++ (c2 ++ cs.flatten))
    have hsa := splitBlank_append (buf ++ c) (c2 ++ cs.flatten)
    simp only [feedChunk, List.flatten_cons]
    rw [show buf ++ (c ++ (c2 ++ cs.flatten)) = (buf ++ c) ++ (c2 ++ cs.flatten) by
      simp [List.append_assoc]]
    rw [hsa]
    rw [dropLast_append_ne _ _ hM, getLastD_append _ _ hM]

/-! ## Read loop lemmas -/

theorem processFrames_append (mid : Nat) : ∀ (fs1 fs2 : List (List Char)) (st : AppState),
    processFrames st mid (fs1 ++ fs2) =
      (let a := processFrames st mid fs1
       if a.2 then a else processFrames a.1 mid fs2)
  | [], fs2, st => by simp [processFrames]
  | f :: fs1, fs2, st => by
    simp only [List.cons_append, processFrames]
    by_cases h : (processFrame st mid f).2
    · simp [h]
    · simp [h, processFrames_append mid fs1 fs2]

theorem runStreamLoop_eq (mid : Nat) :
    ∀ (cs : List (List Char)) (st : AppState) (buf : List Char),
    runStreamLoop st mid buf cs =
      (let a := processFrames st mid (feedChunks buf cs).1
       if a.2 then a.1 else {a.1 with isSending := false})
  | [], st, buf => by simp [runStreamLoop, feedChunks, processFrames]
  | c :: cs, st, buf => by
    simp only [runStreamLoop, feedChunks]
    rw [processFrames_append mid (feedChunk buf c).1 (feedChunks (feedChunk buf c).2 cs).1]
    by_cases h : (processFrames st mid (feedChunk buf c).1).2
    · simp [h]
    · simp only [h, if_false, Bool.false_eq_true]
      exact runStreamLoop_eq mid cs _ _

/-- Each frame either lets the loop continue, or halts it having cleared the
busy flag (the `[DONE]` and in-band error returns both clear it). -/
theorem processFrame_spec (st : AppState) (mid : Nat) (f : List Char) :
    (processFrame st mid f).2 = false ∨ (processFrame st mid f).1.isSending = false := by
  simp only [processFrame]
  repeat' split
  all_goals first | (left; rfl) | (right; rfl)

theorem processFrames_halt_isSending (mid : Nat) :
    ∀ (fs : List (List Char)) (st : AppState),
    (processFrames st mid fs).2 = true → (processFrames st mid fs).1.isSending = false
  | [], st => by simp [processFrames]
  | f :: fs, st => by
    simp only [processFrames]
    by_cases h : (processFrame st mid f).2
    · intro _
      simp only [h, if_true]
      rcases processFrame_spec st mid f with h2 | h2
      · rw [h] at h2
        cases h2
      · exact h2
    · simp only [h, if_false, Bool.false_eq_true]
      exact processFrames_halt_isSending mid fs _

/-- The read loop always ends with the busy flag cleared, whichever exit it
takes. -/
theorem runStreamLoop_isSending (mid : Nat) :
    ∀ (cs : List (List Char)) (st : AppState) (buf : List Char),
    (runStreamLoop st mid buf cs).isSending = false
  | [], st, buf => rfl
  | c :: cs, st, buf => by
    simp only [runStreamLoop]
    by_cases h : (processFrames st mid (feedChunk buf c).1).2
    · simp only [h, if_true]
      exact processFrames_halt_isSending mid _ st h
    · simp only [h, if_false, Bool.false_eq_true]
      exact runStreamLoop_isSending mid cs _ _

/-! ## Claim C1 -/

/-- C1: the frame decoder is split-invariant.  For every way of splitting a
body into a sequence of chunks (any `cs` with `cs.flatten` the body), feeding
the chunks one at a time through the buffer/split/emit loop yields exactly the
same emitted frames and retained buffer as feeding the whole body as a single
chunk — and therefore the read loop (hence the placeholder message's final
content) reaches exactly the same state. -/
theorem c1_frame_decoder_split_invariant (cs : List (List Char)) (st : AppState) (mid : Nat) :
    feedChunks [] cs = feedChunks [] [cs.flatten] ∧
    runStreamLoop st mid [] cs = runStreamLoop st mid [] [cs.flatten] := by
  have hfeed : feedChunks [] cs = feedChunks [] [cs.flatten] := by
    cases cs with
    | nil => rfl
    | cons c cs =>
      rw [feedChunks_cons_flatten, feedChunks_cons_flatten, List.flatten_cons]
      simp
  refine ⟨hfeed, ?_⟩
  rw [runStreamLoop_eq, runStreamLoop_eq, hfeed]

/-! ## Claim C2 -/

/-- C2: a byte stream that ends without a trailing separator drops the
buffered remainder silently.  The read loop's final state is computed from
the complete (separator-terminated) frames alone; those frames, each
re-terminated by the separator, followed by the dropped remainder reconstruct
the body exactly; and the dropped remainder contains no separator, i.e. it is
at most a partial trailing frame, never an unemitted complete frame. -/
theorem c2_trailing_partial_dropped (cs : List (List Char)) (st : AppState) (mid : Nat) :
    runStreamLoop st mid [] cs =
      (let a := processFrames st mid (feedChunks [] cs).1
       if a.2 then a.1 else {a.1 with isSending := false}) ∧
    ((feedChunks [] cs).1.map (· ++ sepBlank)).flatten ++ (feedChunks [] cs).2 = cs.flatten ∧
    hasSub sepBlank (feedChunks [] cs).2 = false := by
  refine ⟨runStreamLoop_eq mid cs st [], ?_, ?_⟩
  · cases cs with
    | nil => rfl
    | cons c cs =>
      rw [feedChunks_cons_flatten]
      have h := splitBlank_reconstruct (c ++ cs.flatten)
      simp only [feedChunk, List.nil_append, List.flatten_cons]
      exact h
  · cases cs with
    | nil => decide
    | cons c cs =>
      rw [feedChunks_cons_flatten]
      have h := splitBlank_last_sepFree (c ++ cs.flatten)
      simp only [feedChunk, List.nil_append]
      exact h

/-! ## Claim C3 -/

/-- A state with the busy flag set, as is reachable while a send is in
flight (the Clear button stays clickable during a send). -/
def busyState : AppState :=
  {input := "", messages := [], isSending := true, error := none,
   documentId := some "default", nextId := 0}

/-- C3 counterexample: after `clearChat` runs on a state whose busy flag is
set, the busy flag is NOT false — `clearChat` never touches `isSending`, so
the claim that it resets the busy flag regardless of prior state fails. -/
theorem c3_counterexample_busy_not_reset : ¬ ((clearChat busyState).isSending = false) := by
  decide

/-- C3 (amended): after `clearChat` runs, regardless of prior state, the
transcript is empty, the error banner is cleared and the input is cleared;
the busy flag is left exactly as it was. -/
theorem c3_clear_amended (st : AppState) :
    (clearChat st).messages = [] ∧ (clearChat st).error = none ∧
    (clearChat st).input = "" ∧ (clearChat st).isSending = st.isSending :=
  ⟨rfl, rfl, rfl, rfl⟩

/-! ## Claim C9 -/

/-- C9: a `send` issued while the busy flag is set is a complete no-op in
both versions: the state (transcript, input, error banner, busy flag) is
returned unchanged and no request is issued. -/
theorem c9_send_while_busy_noop (st : AppState) (o : FetchOutcome)
    (hbusy : st.isSending = true) :
    send st o = (st, none) ∧ sendBasic st o = (st, none) := by
  constructor
  · simp only [send]
    rw [if_pos (Or.inr hbusy)]
  · simp only [sendBasic]
    rw [if_pos (Or.inr hbusy)]

/-- C9 witness: the no-op at a concrete busy state. -/
theorem c9_send_while_busy_noop_witness :
    send busyState (.netError "x") = (busyState, none) ∧
    sendBasic busyState (.netError "x") = (busyState, none) :=
  c9_send_while_busy_noop busyState (.netError "x") rfl

/-! ## Claim C4 -/

theorem sendGo_isSending (st0 : AppState) (t : String) (o : FetchOutcome) :
    (sendGo st0 t o).1.isSending = false := by
  simp only [sendGo]
  repeat' split
  all_goals first
    | rfl
    | exact runStreamLoop_isSending _ _ _ _

theorem sendBasicGo_isSending (st0 : AppState) (t : String) (o : FetchOutcome) :
    (sendBasicGo st0 t o).1.isSending = false := by
  simp only [sendBasicGo]
  repeat' split
  all_goals rfl

/-- C4: on every exit path of a `send` that passed the busy-flag guard —
single-shot success, streaming end-of-data, `[DONE]` completion, in-band
error event, and every thrown failure (non-success status, unreadable body,
network error, JSON parse error) — the busy flag is false when `send`
finishes, in both versions. -/
theorem c4_busy_cleared_on_every_exit (st : AppState) (o : FetchOutcome)
    (hinput : jsTrim st.input.toList ≠ [])
    (hbusy : st.isSending = false) :
    (send st o).1.isSending = false ∧ (sendBasic st o).1.isSending = false := by
  have hguard : ¬(jsTrim st.input.toList = [] ∨ st.isSending = true) := by
    rintro (h | h)
    · exact hinput h
    · rw [hbusy] at h
      cases h
  constructor
  · simp only [send]
    rw [if_neg hguard]
    exact sendGo_isSending _ _ _
  · simp only [sendBasic]
    rw [if_neg hguard]
    exact sendBasicGo_isSending _ _ _

/-- A concrete idle state with pending input, for the witnesses. -/
def idleState : AppState :=
  {input := " hi ", messages := [], isSending := false, error := none,
   documentId := some "default", nextId := 0}

/-- C4 witness: both versions end with the busy flag down at a concrete
state and outcome. -/
theorem c4_busy_cleared_witness :
    (send idleState (.netError "x")).1.isSending = false ∧
    (sendBasic idleState (.netError "x")).1.isSending = false :=
  c4_busy_cleared_on_every_exit idleState (.netError "x") (by decide) rfl

/-! ## Message preservation under the read loop (for C10) -/

theorem updateMessage_getElem (st : AppState) (mid : Nat) (f : String → String) (k : Nat) :
    (updateMessage st mid f).messages[k]? = (st.messages[k]?).map (applyUpd mid f) := by
  simp [updateMessage, List.getElem?_map]

theorem msgs_keep_of_map (l : List Message) (mid : Nat) (g : String → String)
    (k : Nat) (m : Message) (hk : l[k]? = some m) (hid : m.id ≠ mid) :
    (l.map (applyUpd mid g))[k]? = some m := by
  rw [List.getElem?_map, hk]
  simp [applyUpd, hid]

/-- One frame only ever rewrites the placeholder entry: its effect on the
transcript is either nothing or an `updateMessage` on `mid`. -/
theorem processFrame_messages (st : AppState) (mid : Nat) (f : List Char) :
    (processFrame st mid f).1.messages = st.messages ∨
    ∃ g, (processFrame st mid f).1.messages = st.messages.map (applyUpd mid g) := by
  simp only [processFrame]
  repeat' split
  all_goals first
    | (left; rfl)
    | (right; exact ⟨_, rfl⟩)

theorem processFrame_keeps (st : AppState) (mid : Nat) (f : List Char) (k : Nat) (m : Message)
    (hk : st.messages[k]? = some m) (hid : m.id ≠ mid) :
    (processFrame st mid f).1.messages[k]? = some m := by
  rcases processFrame_messages st mid f with h | ⟨g, h⟩
  · rw [h]
    exact hk
  · rw [h]
    exact msgs_keep_of_map _ _ _ _ _ hk hid

theorem processFrames_keeps (mid : Nat) :
    ∀ (fs : List (List Char)) (st : AppState) (k : Nat) (m : Message),
    st.messages[k]? = some m → m.id ≠ mid →
    (processFrames st mid fs).1.messages[k]? = some m
  | [], st, k, m => fun hk _ => hk
  | f :: fs, st, k, m => by
    intro hk hid
    simp only [processFrames]
    by_cases h : (processFrame st mid f).2
    · simp only [h, if_true]
      exact processFrame_keeps st mid f k m hk hid
    · simp only [h, if_false, Bool.false_eq_true]
      exact processFrames_keeps mid fs _ k m (processFrame_keeps st mid f k m hk hid) hid

theorem runStreamLoop_keeps (mid : Nat) :
    ∀ (cs : List (List Char)) (st : AppState) (buf : List Char) (k : Nat) (m : Message),
    st.messages[k]? = some m → m.id ≠ mid →
    (runStreamLoop st mid buf cs).messages[k]? = some m
  | [], st, buf, k, m => fun hk _ => hk
  | c :: cs, st, buf, k, m => by
    intro hk hid
    simp only [runStreamLoop]
    by_cases h : (processFrames st mid (feedChunk buf c).1).2
    · simp only [h, if_true]
      exact processFrames_keeps mid _ st k m hk hid
    · simp only [h, if_false, Bool.false_eq_true]
      exact runStreamLoop_keeps mid cs _ _ k m (processFrames_keeps mid _ st k m hk hid) hid

/-- The user message appended before the fetch. -/
def userMsgOf (st : AppState) (t : String) : Message :=
  {id := st.nextId, role := .user, content := t}

theorem sendPrepared_messages (st : AppState) (t : String) :
    (sendPrepared st t).messages = st.messages ++ [userMsgOf st t] := rfl

theorem sendCatch_keeps (st : AppState) (msg : String) (k : Nat)
    (hk : k < st.messages.length) :
    (sendCatch st msg).messages[k]? = st.messages[k]? := by
  show (st.messages ++ [_])[k]? = st.messages[k]?
  exact List.getElem?_append_left hk

/-- Whatever the outcome, the user message stays at its position, with the
trimmed text, after the whole request runs. -/
theorem sendGo_user_kept (st0 : AppState) (t : String) (o : FetchOutcome) :
    (sendGo st0 t o).1.messages[st0.messages.length]? = some (userMsgOf st0 t) := by
  have hu : (sendPrepared st0 t).messages[st0.messages.length]? = some (userMsgOf st0 t) := by
    rw [sendPrepared_messages]
    exact List.getElem?_concat_length _ _
  have hlen : st0.messages.length < (sendPrepared st0 t).messages.length := by
    rw [sendPrepared_messages]
    simp
  cases o with
  | netError msg =>
    show (sendCatch (sendPrepared st0 t) msg).messages[st0.messages.length]? = _
    rw [sendCatch_keeps _ _ _ hlen]
    exact hu
  | success res =>
    simp only [sendGo]
    repeat' split
    all_goals first
      | (rw [sendCatch_keeps _ _ _ hlen]; exact hu)
      | skip
    · -- streaming branch: placeholder appended, then the loop mutates only it
      refine runStreamLoop_keeps _ _ _ _ _ _ ?_ ?_
      · show ((sendPrepared st0 t).messages ++ [_])[st0.messages.length]? = _
        rw [List.getElem?_append_left hlen]
        exact hu
      · show st0.nextId ≠ (sendPrepared st0 t).nextId
        exact Nat.ne_of_lt (Nat.lt_succ_self _)
    · -- single-shot branch: one assistant message appended after the user one
      show ((sendPrepared st0 t).messages ++ [_])[st0.messages.length]? = _
      rw [List.getElem?_append_left hlen]
      exact hu

theorem sendBasicGo_user_kept (st0 : AppState) (t : String) (o : FetchOutcome) :
    (sendBasicGo st0 t o).1.messages[st0.messages.length]? = some (userMsgOf st0 t) := by
  have hu : (sendPrepared st0 t).messages[st0.messages.length]? = some (userMsgOf st0 t) := by
    rw [sendPrepared_messages]
    exact List.getElem?_concat_length _ _
  have hlen : st0.messages.length < (sendPrepared st0 t).messages.length := by
    rw [sendPrepared_messages]
    simp
  cases o with
  | netError msg =>
    show (sendCatch (sendPrepared st0 t) msg).messages[st0.messages.length]? = _
    rw [sendCatch_keeps _ _ _ hlen]
    exact hu
  | success res =>
    simp only [sendBasicGo]
    repeat' split
    all_goals first
      | (rw [sendCatch_keeps _ _ _ hlen]; exact hu)
      | skip
    · show ((sendPrepared st0 t).messages ++ [_])[st0.messages.length]? = _
      rw [List.getElem?_append_left hlen]
      exact hu

theorem sendGo_req (st0 : AppState) (t : String) (o : FetchOutcome) :
    (sendGo st0 t o).2 = some {message := t, documentId := st0.documentId, stream := some false} := by
  cases o with
  | netError msg => rfl
  | success res =>
    simp only [sendGo]
    repeat' split
    all_goals rfl

theorem sendBasicGo_req (st0 : AppState) (t : String) (o : FetchOutcome) :
    (sendBasicGo st0 t o).2 = some {message := t, documentId := st0.documentId, stream := none} := by
  cases o with
  | netError msg => rfl
  | success res =>
    simp only [sendBasicGo]
    repeat' split
    all_goals rfl

/-! ## Claim C10 -/

/-- C10: `send` trims the input before use.  If the trimmed input is empty
the call is a no-op even when not busy (state returned unchanged, no request
issued); otherwise both the user message appended to the transcript and the
`message` field of the issued request body carry the trimmed text, in both
versions. -/
theorem c10_send_trims_input (st : AppState) (o : FetchOutcome) :
    (jsTrim st.input.toList = [] →
      send st o = (st, none) ∧ sendBasic st o = (st, none)) ∧
    (jsTrim st.input.toList ≠ [] → st.isSending = false →
      (send st o).2 = some {message := String.mk (jsTrim st.input.toList),
                            documentId := st.documentId, stream := some false} ∧
      (send st o).1.messages[st.messages.length]? =
        some {id := st.nextId, role := .user, content := String.mk (jsTrim st.input.toList)} ∧
      (sendBasic st o).2 = some {message := String.mk (jsTrim st.input.toList),
                                 documentId := st.documentId, stream := none} ∧
      (sendBasic st o).1.messages[st.messages.length]? =
        some {id := st.nextId, role := .user, content := String.mk (jsTrim st.input.toList)}) := by
  constructor
  · intro h
    constructor
    · simp only [send]
      rw [if_pos (Or.inl h)]
    · simp only [sendBasic]
      rw [if_pos (Or.inl h)]
  · intro h hbusy
    have hguard : ¬(jsTrim st.input.toList = [] ∨ st.isSending = true) := by
      rintro (h2 | h2)
      · exact h h2
      · rw [hbusy] at h2
        cases h2
    have hs : send st o = sendGo st (String.mk (jsTrim st.input.toList)) o := by
      simp only [send]
      rw [if_neg hguard]
    have hb : sendBasic st o = sendBasicGo st (String.mk (jsTrim st.input.toList)) o := by
      simp only [sendBasic]
      rw [if_neg hguard]
    rw [hs, hb]
    exact ⟨sendGo_req _ _ _, sendGo_user_kept _ _ _,
           sendBasicGo_req _ _ _, sendBasicGo_user_kept _ _ _⟩

/-- C10 witness: the whitespace-only no-op and the trimmed user message and
request at concrete states. -/
theorem c10_send_trims_input_witness :
    send busyState (.netError "x") = (busyState, none) ∧
    (send idleState (.netError "x")).2 =
      some {message := "hi", documentId := some "default", stream := some false} ∧
    (send idleState (.netError "x")).1.messages[0]? =
      some {id := 0, role := .user, content := "hi"} :=
  ⟨((c10_send_trims_input busyState (.netError "x")).1 (by decide)).1,
   ((c10_send_trims_input idleState (.netError "x")).2 (by decide) rfl).1,
   ((c10_send_trims_input idleState (.netError "x")).2 (by decide) rfl).2.1⟩

/-! ## Claim C5 -/

/-- C5: a complete data frame whose payload parses to a value with a
non-empty string `error` field overwrites (not appends to) the placeholder
message's content with an error-formatted string, sets the error banner,
clears the busy flag and halts the loop — the result does not depend on the
frames after it, so none of them are processed. -/
theorem c5_error_frame_overwrites_and_halts (st : AppState) (mid : Nat)
    (payload : List Char) (rest : List (List Char)) (v : Json) (err : String)
    (hnd : jsTrim payload ≠ doneLit)
    (hp : parseJson payload = some v)
    (he : jsGet v "error" = .ok (some (.str err)))
    (hne : err ≠ "") :
    processFrames st mid ((dataMark ++ payload) :: rest) =
      ({updateMessage {st with error := some (.str err)} mid (fun _ => "Error: " ++ err)
          with isSending := false}, true) := by
  have ht : (dataMark ++ payload).take 6 = dataMark := List.take_left dataMark payload
  have hd : (dataMark ++ payload).drop 6 = payload := List.drop_left dataMark payload
  have htr : truthyOpt (some (Json.str err)) = true := by
    simp [truthyOpt, jsTruthy, hne]
  simp only [processFrames, processFrame, ht, hd, if_pos rfl, if_neg hnd, hp, he, htr,
    if_true, textOfOpt, jsToString, jsToStringF, jsonFuel]

/-- The state of a chat mid-stream: a user question and the opened
placeholder (id 1), busy flag up. -/
def streamingState : AppState :=
  {input := "", messages := [{id := 0, role := .user, content := "q"},
                             {id := 1, role := .assistant, content := "partial"}],
   isSending := true, error := none, documentId := none, nextId := 2}

/-- C5 witness: the concrete `data: {"error":"boom"}` frame, followed by a
token frame that is never processed. -/
theorem c5_error_frame_witness :
    processFrames streamingState 1
        ((dataMark ++ ("\x7b\"error\":\"boom\"\x7d").toList) :: [("data: \x7b\"token\":\"X\"\x7d\n\n").toList]) =
      ({updateMessage {streamingState with error := some (.str "boom")} 1
          (fun _ => "Error: " ++ "boom") with isSending := false}, true) :=
  c5_error_frame_overwrites_and_halts streamingState 1 _ _
    (Json.obj [("error", Json.str "boom")]) "boom" (by decide) rfl rfl (by decide)

/-! ## Claim C6 -/

def c6Body : List Char :=
  ("data: \x7b\"token\":\"Hel\"\x7d\n\ndata: \x7b\"token\":\"lo\"\x7d\n\ndata: [DONE]\n\n").toList

def c6Response : Response :=
  {ok := true, status := 200, contentType := "text/event-stream", body := some [c6Body]}

/-- C6: on the body `data: {"token":"Hel"}\n\ndata: {"token":"lo"}\n\ndata:
[DONE]\n\n` the two tokens are appended in arrival order to the one
placeholder assistant message opened empty at stream start, its final content
is `"Hello"`, the busy flag is cleared and no error is set; and on the
`[DONE]` sentinel the loop halts, so a further token frame after the sentinel
changes nothing. -/
theorem c6_token_stream_hello :
    (send idleState (.success c6Response)).1 =
      {input := "", messages := [{id := 0, role := .user, content := "hi"},
                                 {id := 1, role := .assistant, content := "Hello"}],
       isSending := false, error := none, documentId := some "default", nextId := 2} ∧
    (send idleState (.success {c6Response with
        body := some [c6Body ++ ("data: \x7b\"token\":\"XX\"\x7d\n\n").toList]})).1 =
      {input := "", messages := [{id := 0, role := .user, content := "hi"},
                                 {id := 1, role := .assistant, content := "Hello"}],
       isSending := false, error := none, documentId := some "default", nextId := 2} :=
  ⟨rfl, rfl⟩

/-! ## Claim C7 -/

/-- Whether `v.k` exists and is truthy (the guard the interpreter uses). -/
def fieldTruthy (v : Json) (k : String) : Bool :=
  match jsGet v k with
  | .error _ => false
  | .ok none => false
  | .ok (some j) => jsTruthy j

/-- Whether `v.k` exists at all. -/
def hasField (v : Json) (k : String) : Bool :=
  match jsGet v k with
  | .error _ => false
  | .ok none => false
  | .ok (some _) => true

/-- C7 counterexample: the claim quantifies over every data frame whose
payload is not valid JSON, but the `[DONE]` sentinel is such a frame
(`[DONE]` parses as nothing), and far from being skipped with the loop
continuing, it halts the loop and clears the busy flag. -/
theorem c7_counterexample_done_frame :
    parseJson (("[DONE]").toList) = none ∧
    (processFrame streamingState 1 (dataMark ++ ("[DONE]").toList)).2 = true ∧
    (processFrame streamingState 1 (dataMark ++ ("[DONE]").toList)).1.isSending = false ∧
    streamingState.isSending = true :=
  ⟨rfl, rfl, rfl, rfl⟩

/-- C7 (amended): for every data frame whose payload does not trim to the
`[DONE]` sentinel, and either is not valid JSON or parses to a value with
neither a truthy (non-empty) `error` field nor a `token` field, the frame is
skipped with no effect whatsoever and the read loop continues with the
remaining frames. -/
theorem c7_malformed_frame_skipped (st : AppState) (mid : Nat)
    (payload : List Char) (rest : List (List Char))
    (hnd : jsTrim payload ≠ doneLit)
    (h : parseJson payload = none ∨
         ∃ v, parseJson payload = some v ∧ fieldTruthy v "error" = false ∧
           hasField v "token" = false) :
    processFrames st mid ((dataMark ++ payload) :: rest) = processFrames st mid rest := by
  have ht : (dataMark ++ payload).take 6 = dataMark := List.take_left dataMark payload
  have hd : (dataMark ++ payload).drop 6 = payload := List.drop_left dataMark payload
  have hskip : processFrame st mid (dataMark ++ payload) = (st, false) := by
    rcases h with h | ⟨v, hv, herr, htok⟩
    · simp only [processFrame, ht, hd, if_pos rfl, if_neg hnd, h]
      simp
    · simp only [processFrame, ht, hd, if_pos rfl, if_neg hnd, hv]
      cases hjg : jsGet v "error" with
      | error e => rfl
      | ok errv =>
        have herr2 : truthyOpt errv = false := by
          simp only [fieldTruthy, hjg] at herr
          cases errv with
          | none => rfl
          | some j => simpa [truthyOpt] using herr
        simp only [herr2, Bool.false_eq_true, if_false]
        cases hjt : jsGet v "token" with
        | error e => rfl
        | ok tokv =>
          have htok2 : truthyOpt tokv = false := by
            simp only [hasField, hjt] at htok
            cases tokv with
            | none => rfl
            | some j => simp at htok
          simp only [htok2, Bool.false_eq_true, if_false]
          simp
  simp only [processFrames, hskip]
  simp

/-- C7 witness for the amended claim: a frame with garbage payload and a
frame whose payload has only unrecognised fields are both skipped, and the
token frame after them is still processed. -/
theorem c7_malformed_frame_witness :
    processFrames streamingState 1
        ((dataMark ++ ("notjson\x7b\x7b").toList) :: (dataMark ++ ("\x7b\"other\":1\x7d").toList)
          :: [("ignored").toList]) =
      processFrames streamingState 1 [("ignored").toList] := by
  rw [c7_malformed_frame_skipped streamingState 1 (("notjson\x7b\x7b").toList) _ (by decide)
    (Or.inl rfl)]
  rw [c7_malformed_frame_skipped streamingState 1 (("\x7b\"other\":1\x7d").toList) _ (by decide)
    (Or.inr ⟨Json.obj [("other", Json.num false ['1'] [] none)], rfl, rfl, rfl⟩)]

/-! ## Claim C8 -/

/-- C8: on a successful response whose declared content type does not
indicate an event stream, the whole body is decoded as one JSON object and
exactly one assistant message is appended after the user message — its
content is the `answer` field's (string) value when present and the fixed
fallback string when absent — the busy flag ends cleared and no error is
set (a missing answer is not treated as an error).  The plain version
behaves identically (it never consults the content type). -/
theorem c8_single_shot_answer (st : AppState) (res : Response) (v : Json)
    (ans : Option Json) (c : String)
    (hinput : jsTrim st.input.toList ≠ [])
    (hbusy : st.isSending = false)
    (hok : res.ok = true)
    (hct : hasSub (("text/event-stream").toList) res.contentType.toList = false)
    (hp : parseJson (bodyText res) = some v)
    (ha : jsGet v "answer" = .ok ans)
    (hc : (ans = none ∧ c = "No answer returned by server.") ∨ ans = some (.str c)) :
    (send st (.success res)).1.messages =
      st.messages ++ [userMsgOf st (String.mk (jsTrim st.input.toList)),
        {id := st.nextId + 1, role := .assistant, content := c}] ∧
    (send st (.success res)).1.error = none ∧
    (send st (.success res)).1.isSending = false ∧
    (sendBasic st (.success res)).1.messages =
      st.messages ++ [userMsgOf st (String.mk (jsTrim st.input.toList)),
        {id := st.nextId + 1, role := .assistant, content := c}] ∧
    (sendBasic st (.success res)).1.error = none ∧
    (sendBasic st (.success res)).1.isSending = false := by
  have hguard : ¬(jsTrim st.input.toList = [] ∨ st.isSending = true) := by
    rintro (h2 | h2)
    · exact hinput h2
    · rw [hbusy] at h2
      cases h2
  have hs : send st (.success res) = sendGo st (String.mk (jsTrim st.input.toList)) (.success res) := by
    simp only [send]
    rw [if_neg hguard]
  have hb : sendBasic st (.success res) =
      sendBasicGo st (String.mk (jsTrim st.input.toList)) (.success res) := by
    simp only [sendBasic]
    rw [if_neg hguard]
  have hok2 : ¬(res.ok = false) := by simp [hok]
  have hct2 : ¬(hasSub (("text/event-stream").toList) res.contentType.toList = true) := by
    intro hx
    rw [hx] at hct
    cases hct
  have hat : answerText ans = c := by
    rcases hc with ⟨h1, h2⟩ | h1
    · rw [h1, h2]
      rfl
    · rw [h1]
      rfl
  rw [hs, hb]
  simp only [sendGo, sendBasicGo, if_neg hok2, if_neg hct2, hp, ha, hat]
  simp [addMessage, sendPrepared, userMsgOf]

/-- A plain JSON response with the given body text. -/
def jsonRes (body : String) : Response :=
  {ok := true, status := 200, contentType := "application/json", body := some [body.toList]}

/-- C8 witness: the concrete single-shot bodies `{"answer":"42"}` and `{}`. -/
theorem c8_single_shot_witness :
    (send idleState (.success (jsonRes "\x7b\"answer\":\"42\"\x7d"))).1.messages =
      [{id := 0, role := .user, content := "hi"},
       {id := 1, role := .assistant, content := "42"}] ∧
    (send idleState (.success (jsonRes "\x7b\x7d"))).1.messages =
      [{id := 0, role := .user, content := "hi"},
       {id := 1, role := .assistant, content := "No answer returned by server."}] :=
  ⟨(c8_single_shot_answer idleState (jsonRes "\x7b\"answer\":\"42\"\x7d")
      (Json.obj [("answer", Json.str "42")]) (some (.str "42"))
      "42" (by decide) rfl rfl (by decide) rfl rfl (Or.inr rfl)).1,
   (c8_single_shot_answer idleState (jsonRes "\x7b\x7d") (Json.obj []) none
      "No answer returned by server."
      (by decide) rfl rfl (by decide) rfl rfl (Or.inl ⟨rfl, rfl⟩)).1⟩
